import Mathlib

/-!
Verification of the warehouse grid-world environment
(simple_warehouse_env.py, class AdvancedRobotWarehouseEnv).

Shallow embedding notes:
* Grid cells are integer pairs.  The source stores positions as float32
  arrays, but every reachable position is integer-valued (reset draws
  integers from randint, moves add plus or minus 1), so the embedding
  in Int times Int is exact.
* Euclidean-norm comparisons against the literals 1.0, 0.5 and 0.8 are
  translated to exact integer comparisons on the squared distance
  (norm p < 1.0 iff distSq p < 1, norm p < 0.5 iff 4 * distSq p < 1,
  norm p < 0.8 iff 25 * distSq p < 16); for integer vectors the float
  comparisons of the source agree with these.
* The battery is a rational number; the float drains and boosts of the
  source (0.02, 0.3, the cap at 1.0 and the thresholds 0.25 and 0.95)
  are modelled by exact rational arithmetic.
* The reward is a real number because the progress term multiplies a
  difference of exact Euclidean distances (square roots).
* Rendering-only bookkeeping of the class (last_action, last_reward,
  last_pos, last_move_action, agent_dir, the pygame screen) is not part
  of the state: none of it is read by step, reset or _get_observation.
-/

namespace Warehouse

/-- The three values the source stores in self.target_type. -/
inductive TargetType where
  | CHARGER
  | PICKUP
  | DESTINATION
  deriving DecidableEq, Repr

/-- Grid side length (self.grid_size = 7). -/
def gridSize : ℤ := 7

/-- The obstacle mask: self.map[1, 1:4] = 1, self.map[5, 3:6] = 1,
self.map[3, 3] = 1, indexed as map[y, x]. -/
def isWall (p : ℤ × ℤ) : Bool :=
  (p.2 == 1 && (p.1 == 1 || p.1 == 2 || p.1 == 3)) ||
  (p.2 == 5 && (p.1 == 3 || p.1 == 4 || p.1 == 5)) ||
  (p.1 == 3 && p.2 == 3)

/-- Bounds check 0 <= x < grid_size and 0 <= y < grid_size. -/
def inGrid (p : ℤ × ℤ) : Bool :=
  0 ≤ p.1 && p.1 < gridSize && 0 ≤ p.2 && p.2 < gridSize

/-- A cell the agent or a target may occupy: inside the grid and not a wall. -/
def freeCell (p : ℤ × ℤ) : Bool :=
  inGrid p && !(isWall p)

/-- The helper _check_wall_at: 1.0 for out-of-range or wall, else 0.0
(here as a Bool, converted to 0 or 1 by the observation encoder). -/
def checkWallAt (p : ℤ × ℤ) : Bool :=
  if !(inGrid p) then true else isWall p

/-- Squared Euclidean distance between two cells. -/
def distSq (p q : ℤ × ℤ) : ℤ :=
  (p.1 - q.1) ^ 2 + (p.2 - q.2) ^ 2

/-- Euclidean distance (np.linalg.norm) between two cells, as a real. -/
noncomputable def distR (p q : ℤ × ℤ) : ℝ :=
  Real.sqrt ((distSq p q : ℤ) : ℝ)

/-- The mutable per-episode state of AdvancedRobotWarehouseEnv that the
environment logic reads or writes. -/
structure WState where
  agentPos : ℤ × ℤ
  pickupPos : ℤ × ℤ
  destPos : ℤ × ℤ
  chargerPos : ℤ × ℤ
  holding : Bool
  battery : ℚ
  needsCharging : Bool
  stepCount : ℕ
  posHistory : List (ℤ × ℤ)
  lastTargetType : Option TargetType
  targetType : Option TargetType
  deriving DecidableEq, Repr

/-- Boolean flag as a rational 0 or 1 (float(b) in the source). -/
def flagQ (b : Bool) : ℚ := if b then 1 else 0

/-- The target-selection logic at the top of _get_observation (the same
priority as in step, recomputed from the current fields). -/
def obsTargetOf (st : WState) : ℤ × ℤ :=
  if st.battery < 1/4 || st.needsCharging then st.chargerPos
  else if !st.holding then st.pickupPos
  else st.destPos

/-- The observation encoder _get_observation: a 16-component vector. -/
def observation (st : WState) : List ℚ :=
  let target := obsTargetOf st
  let relX : ℚ := ((target.1 - st.agentPos.1 : ℤ) : ℚ) / 6
  let relY : ℚ := ((target.2 - st.agentPos.2 : ℤ) : ℚ) / 6
  let relXC : ℚ := ((st.chargerPos.1 - st.agentPos.1 : ℤ) : ℚ) / 6
  let relYC : ℚ := ((st.chargerPos.2 - st.agentPos.2 : ℤ) : ℚ) / 6
  let wU := flagQ (checkWallAt (st.agentPos.1, st.agentPos.2 - 1))
  let wD := flagQ (checkWallAt (st.agentPos.1, st.agentPos.2 + 1))
  let wL := flagQ (checkWallAt (st.agentPos.1 - 1, st.agentPos.2))
  let wR := flagQ (checkWallAt (st.agentPos.1 + 1, st.agentPos.2))
  let wallCount : ℚ := (wU + wD + wL + wR) / 4
  let atTarget : ℚ := if 25 * distSq st.agentPos target < 16 then 1 else 0
  let twU := flagQ (checkWallAt (target.1, target.2 - 1))
  let twD := flagQ (checkWallAt (target.1, target.2 + 1))
  let twL := flagQ (checkWallAt (target.1 - 1, target.2))
  let twR := flagQ (checkWallAt (target.1 + 1, target.2))
  [relX, relY, flagQ st.holding, wU, wD, wL, wR, atTarget,
   st.battery, relXC, relYC, wallCount, twU, twD, twL, twR]

/-- Battery value after the unconditional per-step drain of 0.02. -/
def drained (st : WState) : ℚ := st.battery - 1/50

/-- The needs_charging latch after the check battery < 0.25 inside step. -/
def needs1Of (st : WState) : Bool :=
  if drained st < 1/4 then true else st.needsCharging

/-- The target type the step selects (stored into self.target_type). -/
def ttOf (st : WState) : TargetType :=
  if needs1Of st then TargetType.CHARGER
  else if !st.holding then TargetType.PICKUP
  else TargetType.DESTINATION

/-- The active target cell paired with the selected target type. -/
def activeOf (st : WState) : ℤ × ℤ :=
  match ttOf st with
  | TargetType.CHARGER => st.chargerPos
  | TargetType.PICKUP => st.pickupPos
  | TargetType.DESTINATION => st.destPos

/-- The position history after the reset-on-target-switch check at the
top of step (cleared when last_target_type is absent or differs). -/
def hist1Of (st : WState) : List (ℤ × ℤ) :=
  if st.lastTargetType = some (ttOf st) then st.posHistory else []

/-- Displacement of a movement action index (dx, dy); indices other
than 0..3 that still satisfy action < 4 leave dx = dy = 0. -/
def moveDelta (a : ℤ) : ℤ × ℤ :=
  if a = 0 then (0, -1)
  else if a = 1 then (0, 1)
  else if a = 2 then (-1, 0)
  else if a = 3 then (1, 0)
  else (0, 0)

/-- Outcome of the action-execution section of step. -/
structure ExecOut where
  pos : ℤ × ℤ
  holding : Bool
  hist : List (ℤ × ℤ)
  rew : ℝ
  drop : Bool

/-- The action-execution section of step: movement with collision and
loop handling, WAIT, PICKUP, DROP; any other index falls through. -/
noncomputable def execAction (a : ℤ) (pos : ℤ × ℤ) (holding : Bool)
    (needs : Bool) (hist : List (ℤ × ℤ))
    (active pickup dest charger : ℤ × ℤ) : ExecOut :=
  if a < 4 then
    let d := moveDelta a
    let np := (pos.1 + d.1, pos.2 + d.2)
    if freeCell np then
      let prog : ℝ := 10 * (distR pos active - distR np active)
      let loopPen : ℝ := if np ∈ hist then -5 else 0
      let h2 := hist ++ [np]
      let h3 := if 8 < h2.length then h2.tail else h2
      ⟨np, holding, h3, prog + loopPen, false⟩
    else
      ⟨pos, holding, hist, -10, false⟩
  else if a = 6 then
    if needs && distSq pos charger < 1 then ⟨pos, holding, hist, 1, false⟩
    else ⟨pos, holding, hist, -5, false⟩
  else if a = 4 then
    if !holding && distSq pos pickup < 1 then ⟨pos, true, hist, 50, false⟩
    else ⟨pos, holding, hist, -5, false⟩
  else if a = 5 then
    if holding && distSq pos dest < 1 then ⟨pos, false, hist, 100, true⟩
    else ⟨pos, holding, hist, -5, false⟩
  else
    ⟨pos, holding, hist, 0, false⟩

/-- The action-execution result of step on a whole state. -/
noncomputable def postExec (st : WState) (a : ℤ) : ExecOut :=
  execAction a st.agentPos st.holding (needs1Of st) (hist1Of st)
    (activeOf st) st.pickupPos st.destPos st.chargerPos

/-- Outcome of the auto-trigger / proximity section of step. -/
structure AutoOut where
  holding : Bool
  battery : ℚ
  needs : Bool
  rew : ℚ
  drop : Bool
  deriving DecidableEq, Repr

/-- The auto-trigger section: when the post-action distance to the
active target is below 0.5, add the +10 bonus and fire the interaction
of the selected target type. -/
def applyAuto (tt : TargetType) (near : Bool) (holding : Bool)
    (battery : ℚ) (needs : Bool) : AutoOut :=
  if near then
    match tt with
    | TargetType.CHARGER =>
      let b2 := min 1 (battery + 3/10)
      let n2 := if 19/20 ≤ b2 && needs then false else needs
      ⟨holding, b2, n2, 10, false⟩
    | TargetType.PICKUP =>
      if !holding then ⟨true, battery, needs, 10 + 50, false⟩
      else ⟨holding, battery, needs, 10, false⟩
    | TargetType.DESTINATION =>
      if holding then ⟨false, battery, needs, 10 + 100, true⟩
      else ⟨holding, battery, needs, 10, false⟩
  else ⟨holding, battery, needs, 0, false⟩

/-- Result of one step call: next state, reward and the two episode
flags, in the order of the gymnasium 5-tuple (the observation is
observation applied to the state, and info is always empty). -/
structure StepResult where
  state : WState
  reward : ℝ
  terminated : Bool
  truncated : Bool

/-- The step method of AdvancedRobotWarehouseEnv. -/
noncomputable def step (st : WState) (a : ℤ) : StepResult :=
  let sc := st.stepCount + 1
  let b1 := drained st
  if b1 ≤ 0 then
    ⟨{ st with stepCount := sc, battery := b1 }, -100, true, false⟩
  else
    let tt := ttOf st
    let e := postExec st a
    let near : Bool := 4 * distSq e.pos (activeOf st) < 1
    let au := applyAuto tt near e.holding b1 (needs1Of st)
    let done := e.drop || au.drop || decide (200 ≤ sc)
    ⟨{ agentPos := e.pos, pickupPos := st.pickupPos, destPos := st.destPos,
       chargerPos := st.chargerPos, holding := au.holding,
       battery := au.battery, needsCharging := au.needs, stepCount := sc,
       posHistory := e.hist, lastTargetType := some tt,
       targetType := some tt },
      -1 + e.rew + (au.rew : ℝ), done, false⟩

/-- One call of _get_free_pos on the global numpy stream g (randint
draws are always inside the grid, hence the Fin 7 stream type; only
the wall check of the source is performed), starting at stream index
i, with explicit fuel for the rejection loop. -/
def getFreePos (g : ℕ → Fin 7 × Fin 7) : ℕ → ℕ → Option ((ℤ × ℤ) × ℕ)
  | _, 0 => none
  | i, fuel + 1 =>
    let p : ℤ × ℤ := (((g i).1 : ℤ), ((g i).2 : ℤ))
    if !(isWall p) then some (p, i + 1) else getFreePos g (i + 1) fuel

/-- A while loop of reset: redraw a free position until it differs from
every position in the exclusion list. -/
def drawAvoid (g : ℕ → Fin 7 × Fin 7) (excl : List (ℤ × ℤ)) :
    ℕ → ℕ → Option ((ℤ × ℤ) × ℕ)
  | _, 0 => none
  | i, fuel + 1 =>
    match getFreePos g i (fuel + 1) with
    | none => none
    | some (p, j) =>
      if p ∈ excl then drawAvoid g excl j fuel else some (p, j)

set_option linter.unusedVariables false in
/-- The reset method on a freshly constructed environment.  The seed
argument is forwarded to the gymnasium base class (super().reset),
which seeds self.np_random; but every position draw below goes through
_get_free_pos, which reads the process-global numpy generator np.random
(modelled by the stream g), so the seed influences nothing. -/
def resetW (seed : Option ℕ) (g : ℕ → Fin 7 × Fin 7) (fuel : ℕ) :
    Option WState :=
  match getFreePos g 0 fuel with
  | none => none
  | some (agent, i1) =>
  match drawAvoid g [agent] i1 fuel with
  | none => none
  | some (charger, i2) =>
  match drawAvoid g [agent, charger] i2 fuel with
  | none => none
  | some (pickup, i3) =>
  match drawAvoid g [pickup, agent, charger] i3 fuel with
  | none => none
  | some (dest, _) =>
  some { agentPos := agent, pickupPos := pickup, destPos := dest,
         chargerPos := charger, holding := false, battery := 1,
         needsCharging := false, stepCount := 0, posHistory := [agent],
         lastTargetType := none, targetType := none }

/-! ## Basic facts about the embedding -/

theorem distSq_nonneg (p q : ℤ × ℤ) : 0 ≤ distSq p q := by
  have h1 : 0 ≤ (p.1 - q.1) ^ 2 := sq_nonneg _
  have h2 : 0 ≤ (p.2 - q.2) ^ 2 := sq_nonneg _
  unfold distSq
  omega

theorem distSq_eq_zero_iff (p q : ℤ × ℤ) : distSq p q = 0 ↔ p = q := by
  unfold distSq
  constructor
  · intro h
    have h1 : 0 ≤ (p.1 - q.1) ^ 2 := sq_nonneg _
    have h2 : 0 ≤ (p.2 - q.2) ^ 2 := sq_nonneg _
    have e1 : (p.1 - q.1) ^ 2 = 0 := by omega
    have e2 : (p.2 - q.2) ^ 2 = 0 := by omega
    have : p.1 = q.1 := by nlinarith [sq_nonneg (p.1 - q.1)]
    have : p.2 = q.2 := by nlinarith [sq_nonneg (p.2 - q.2)]
    exact Prod.ext_iff.mpr ⟨by omega, by assumption⟩
  · intro h
    subst h
    ring

theorem distSq_lt_one_iff (p q : ℤ × ℤ) : distSq p q < 1 ↔ p = q := by
  rw [← distSq_eq_zero_iff]
  have := distSq_nonneg p q
  omega

theorem distSq_four_lt_one_iff (p q : ℤ × ℤ) : 4 * distSq p q < 1 ↔ p = q := by
  rw [← distSq_eq_zero_iff]
  have := distSq_nonneg p q
  omega

theorem distR_self_sub (p q : ℤ × ℤ) : distR p q - distR p q = 0 := by
  ring

/-- The step function never reports truncation: the fourth component of
the returned 5-tuple is the literal False in both return statements. -/
theorem step_truncated_false (st : WState) (a : ℤ) :
    (step st a).truncated = false := by
  simp only [step]
  split_ifs <;> rfl

/-- The early return of step when the drained battery is at or below 0. -/
theorem step_of_depleted (st : WState) (a : ℤ) (hb : drained st ≤ 0) :
    step st a =
      ⟨{ st with stepCount := st.stepCount + 1, battery := drained st },
        -100, true, false⟩ := by
  simp only [step, if_pos hb]

/-- The state produced by a non-depleted step. -/
theorem step_state_of_pos (st : WState) (a : ℤ) (hb : 0 < drained st) :
    (step st a).state =
      { agentPos := (postExec st a).pos, pickupPos := st.pickupPos,
        destPos := st.destPos, chargerPos := st.chargerPos,
        holding := (applyAuto (ttOf st)
          (decide (4 * distSq (postExec st a).pos (activeOf st) < 1))
          (postExec st a).holding (drained st) (needs1Of st)).holding,
        battery := (applyAuto (ttOf st)
          (decide (4 * distSq (postExec st a).pos (activeOf st) < 1))
          (postExec st a).holding (drained st) (needs1Of st)).battery,
        needsCharging := (applyAuto (ttOf st)
          (decide (4 * distSq (postExec st a).pos (activeOf st) < 1))
          (postExec st a).holding (drained st) (needs1Of st)).needs,
        stepCount := st.stepCount + 1, posHistory := (postExec st a).hist,
        lastTargetType := some (ttOf st), targetType := some (ttOf st) } := by
  simp only [step, if_neg (not_le.mpr hb)]

/-- The reward produced by a non-depleted step. -/
theorem step_reward_of_pos (st : WState) (a : ℤ) (hb : 0 < drained st) :
    (step st a).reward =
      -1 + (postExec st a).rew +
        ((applyAuto (ttOf st)
          (decide (4 * distSq (postExec st a).pos (activeOf st) < 1))
          (postExec st a).holding (drained st) (needs1Of st)).rew : ℝ) := by
  simp only [step, if_neg (not_le.mpr hb)]

/-- The terminated flag produced by a non-depleted step. -/
theorem step_terminated_of_pos (st : WState) (a : ℤ) (hb : 0 < drained st) :
    (step st a).terminated =
      ((postExec st a).drop ||
        (applyAuto (ttOf st)
          (decide (4 * distSq (postExec st a).pos (activeOf st) < 1))
          (postExec st a).holding (drained st) (needs1Of st)).drop ||
        decide (200 ≤ st.stepCount + 1)) := by
  simp only [step, if_neg (not_le.mpr hb)]

/-- The action execution only ever places the agent on its old cell or
on a checked free destination cell. -/
theorem execAction_pos_free (a : ℤ) (pos : ℤ × ℤ) (holding needs : Bool)
    (hist : List (ℤ × ℤ)) (active pickup dest charger : ℤ × ℤ)
    (h : freeCell pos = true) :
    freeCell (execAction a pos holding needs hist active pickup dest
      charger).pos = true := by
  simp only [execAction]
  split_ifs <;> simp_all

/-- The action execution keeps the history length at 8 or below. -/
theorem execAction_hist_len (a : ℤ) (pos : ℤ × ℤ) (holding needs : Bool)
    (hist : List (ℤ × ℤ)) (active pickup dest charger : ℤ × ℤ)
    (h : hist.length ≤ 8) :
    (execAction a pos holding needs hist active pickup dest
      charger).hist.length ≤ 8 := by
  simp only [execAction]
  split_ifs <;> simp_all [List.length_append]

/-- The auto-trigger battery is either untouched or the charger boost. -/
theorem applyAuto_battery_cases (tt : TargetType) (near holding : Bool)
    (battery : ℚ) (needs : Bool) :
    (applyAuto tt near holding battery needs).battery = battery ∨
    (applyAuto tt near holding battery needs).battery =
      min 1 (battery + 3/10) := by
  unfold applyAuto
  cases tt <;> split_ifs <;> simp

/-- Lower bound on the auto-trigger battery. -/
theorem applyAuto_battery_pos (tt : TargetType) (near holding : Bool)
    (battery : ℚ) (needs : Bool) (h : 0 < battery) :
    0 < (applyAuto tt near holding battery needs).battery := by
  rcases applyAuto_battery_cases tt near holding battery needs with hc | hc <;>
    rw [hc]
  · exact h
  · exact lt_min (by norm_num) (by linarith)

/-- Upper bound on the auto-trigger battery. -/
theorem applyAuto_battery_le_one (tt : TargetType) (near holding : Bool)
    (battery : ℚ) (needs : Bool) (h : battery ≤ 1) :
    (applyAuto tt near holding battery needs).battery ≤ 1 := by
  rcases applyAuto_battery_cases tt near holding battery needs with hc | hc <;>
    rw [hc]
  · exact h
  · exact min_le_left _ _

/-- The battery stays on the 1/50 grid through the auto-trigger. -/
theorem applyAuto_battery_gran (tt : TargetType) (near holding : Bool)
    (battery : ℚ) (needs : Bool) (k : ℤ) (h : battery = (k : ℚ) / 50) :
    ∃ j : ℤ, (applyAuto tt near holding battery needs).battery =
      (j : ℚ) / 50 := by
  rcases applyAuto_battery_cases tt near holding battery needs with hc | hc <;>
    rw [hc]
  · exact ⟨k, h⟩
  · refine ⟨min 50 (k + 15), ?_⟩
    rw [h]
    have h50 : (0 : ℚ) ≤ 50 := by norm_num
    have : (k : ℚ) / 50 + 3 / 10 = ((k : ℚ) + 15) / 50 := by ring
    rw [this]
    have h1 : (1 : ℚ) = (50 : ℚ) / 50 := by norm_num
    rw [h1, min_div_div_right h50]
    push_cast
    ring_nf

/-! ## Reachable-state invariant -/

/-- Invariant established by reset and preserved by every step that does
not terminate the episode: all entity positions are free in-grid cells,
the battery lies in (0, 1] on the 1/50 grid (every battery write is the
initial 1.0, a drain of 0.02 or a boost of 0.3 capped at 1.0), and the
loop-detection history holds at most 8 cells. -/
def Inv (st : WState) : Prop :=
  freeCell st.agentPos = true ∧ freeCell st.pickupPos = true ∧
  freeCell st.destPos = true ∧ freeCell st.chargerPos = true ∧
  0 < st.battery ∧ st.battery ≤ 1 ∧
  (∃ k : ℤ, st.battery = (k : ℚ) / 50) ∧
  st.posHistory.length ≤ 8

theorem getFreePos_free (g : ℕ → Fin 7 × Fin 7) :
    ∀ fuel i p j, getFreePos g i fuel = some (p, j) → freeCell p = true := by
  intro fuel
  induction fuel with
  | zero => intro i p j h; simp [getFreePos] at h
  | succ n ih =>
    intro i p j h
    simp only [getFreePos] at h
    split_ifs at h with hw
    · have hp : p = (((g i).1 : ℤ), ((g i).2 : ℤ)) := by
        simpa using congrArg (fun o => (Option.map Prod.fst o).getD p) h.symm
      subst hp
      have h1 := (g i).1.isLt
      have h2 := (g i).2.isLt
      simp only [Bool.not_eq_true'] at hw
      simp only [freeCell, inGrid, gridSize, hw, Bool.and_true,
        Bool.and_eq_true, decide_eq_true_eq, Bool.not_false]
      refine ⟨⟨⟨?_, ?_⟩, ?_⟩, ?_⟩ <;> omega
    · exact ih (i + 1) p j h

theorem drawAvoid_free (g : ℕ → Fin 7 × Fin 7) (excl : List (ℤ × ℤ)) :
    ∀ fuel i p j, drawAvoid g excl i fuel = some (p, j) →
      freeCell p = true := by
  intro fuel
  induction fuel with
  | zero => intro i p j h; simp [drawAvoid] at h
  | succ n ih =>
    intro i p j h
    simp only [drawAvoid] at h
    cases hg : getFreePos g i (n + 1) with
    | none => rw [hg] at h; cases h
    | some v =>
      obtain ⟨q, m⟩ := v
      rw [hg] at h
      simp only at h
      split_ifs at h with hmem
      · exact ih m p j h
      · have : q = p := by simpa using congrArg (fun o =>
          (Option.map Prod.fst o).getD q) h
        subst this
        exact getFreePos_free g (n + 1) i q m hg

theorem resetW_Inv (seed : Option ℕ) (g : ℕ → Fin 7 × Fin 7) (fuel : ℕ)
    (st : WState) (h : resetW seed g fuel = some st) : Inv st := by
  unfold resetW at h
  split at h
  · cases h
  next agent i1 hagent =>
  split at h
  · cases h
  next charger i2 hcharger =>
  split at h
  · cases h
  next pickup i3 hpickup =>
  split at h
  · cases h
  next dest i4 hdest =>
  have hst := Option.some.inj h
  subst hst
  refine ⟨getFreePos_free g fuel 0 agent i1 hagent,
    drawAvoid_free g _ fuel i2 pickup i3 hpickup,
    drawAvoid_free g _ fuel i3 dest i4 hdest,
    drawAvoid_free g _ fuel i1 charger i2 hcharger,
    by norm_num, by norm_num, ⟨50, by norm_num⟩, by simp⟩

theorem hist1Of_len (st : WState) (h : st.posHistory.length ≤ 8) :
    (hist1Of st).length ≤ 8 := by
  unfold hist1Of
  split_ifs <;> simp [h]

/-- Every step that does not end the episode preserves the invariant. -/
theorem Inv_step (st : WState) (a : ℤ) (hI : Inv st)
    (ht : (step st a).terminated = false) : Inv (step st a).state := by
  obtain ⟨hA, hP, hD, hC, hb0, hb1, ⟨k, hk⟩, hH⟩ := hI
  by_cases hb : drained st ≤ 0
  · rw [step_of_depleted st a hb] at ht
    cases ht
  · have hbp : 0 < drained st := not_le.mp hb
    rw [step_state_of_pos st a hbp]
    have hdr : drained st = ((k - 1 : ℤ) : ℚ) / 50 := by
      unfold drained
      rw [hk]
      push_cast
      ring
    refine ⟨execAction_pos_free _ _ _ _ _ _ _ _ _ hA, hP, hD, hC,
      applyAuto_battery_pos _ _ _ _ _ hbp,
      applyAuto_battery_le_one _ _ _ _ _ ?_,
      applyAuto_battery_gran _ _ _ _ _ (k - 1) hdr,
      execAction_hist_len _ _ _ _ _ _ _ _ _ (hist1Of_len st hH)⟩
    unfold drained
    linarith

/-- The states an episode can actually be in: the output of a reset, or
the successor of a reachable state by a step that did not terminate. -/
inductive Reachable : WState → Prop where
  | init (seed : Option ℕ) (g : ℕ → Fin 7 × Fin 7) (fuel : ℕ) (st : WState) :
      resetW seed g fuel = some st → Reachable st
  | next (st : WState) (a : ℤ) : Reachable st →
      (step st a).terminated = false → Reachable (step st a).state

theorem reachable_Inv (st : WState) (h : Reachable st) : Inv st := by
  induction h with
  | init seed g fuel st h => exact resetW_Inv seed g fuel st h
  | next st a hr ht ih => exact Inv_step st a ih ht

/-! ## Observation bounds -/

/-- The bound the specification demands of an observation: 16 components,
all inside the interval from -1 to 1, with the flag-like components (all
but the two relative-displacement pairs at positions 0, 1, 9, 10) inside
the interval from 0 to 1. -/
def obsBounded (l : List ℚ) : Prop :=
  l.length = 16 ∧ (∀ q ∈ l, -1 ≤ q ∧ q ≤ 1) ∧
  ∀ i ∈ ([2, 3, 4, 5, 6, 7, 8, 11, 12, 13, 14, 15] : List ℕ), 0 ≤ l.getD i 0

theorem inGrid_bounds (p : ℤ × ℤ) (h : inGrid p = true) :
    0 ≤ p.1 ∧ p.1 < 7 ∧ 0 ≤ p.2 ∧ p.2 < 7 := by
  simp only [inGrid, gridSize, Bool.and_eq_true, decide_eq_true_eq] at h
  exact ⟨h.1.1.1, h.1.1.2, h.1.2, h.2⟩

theorem relBound (x y : ℤ) (hx0 : 0 ≤ x) (hx : x < 7) (hy0 : 0 ≤ y)
    (hy : y < 7) :
    -1 ≤ ((y - x : ℤ) : ℚ) / 6 ∧ ((y - x : ℤ) : ℚ) / 6 ≤ 1 := by
  have h1 : ((y - x : ℤ) : ℚ) ≤ 6 := by
    have h : y - x ≤ 6 := by omega
    exact_mod_cast h
  have h2 : (-6 : ℚ) ≤ ((y - x : ℤ) : ℚ) := by
    have h : (-6 : ℤ) ≤ y - x := by omega
    exact_mod_cast h
  constructor
  · rw [le_div_iff₀ (by norm_num : (0 : ℚ) < 6)]
    linarith
  · rw [div_le_one (by norm_num : (0 : ℚ) < 6)]
    linarith

theorem flagQ_nonneg (b : Bool) : 0 ≤ flagQ b := by
  unfold flagQ
  split_ifs <;> norm_num

theorem flagQ_le_one (b : Bool) : flagQ b ≤ 1 := by
  unfold flagQ
  split_ifs <;> norm_num

theorem unit_mem (q : ℚ) (h0 : 0 ≤ q) (h1 : q ≤ 1) : -1 ≤ q ∧ q ≤ 1 :=
  ⟨by linarith, h1⟩

theorem wallCount_bounds (a b c d : Bool) :
    0 ≤ (flagQ a + flagQ b + flagQ c + flagQ d) / 4 ∧
    (flagQ a + flagQ b + flagQ c + flagQ d) / 4 ≤ 1 := by
  have na := flagQ_nonneg a
  have nb := flagQ_nonneg b
  have nc := flagQ_nonneg c
  have nd := flagQ_nonneg d
  have la := flagQ_le_one a
  have lb := flagQ_le_one b
  have lc := flagQ_le_one c
  have ld := flagQ_le_one d
  constructor
  · positivity
  · rw [div_le_one (by norm_num : (0 : ℚ) < 4)]
    linarith

/-- All sixteen observation components are bounded as the specification
says whenever the positions are in-grid and the battery is in [0, 1]. -/
theorem observation_bounded (st : WState)
    (hA : inGrid st.agentPos = true) (hP : inGrid st.pickupPos = true)
    (hD : inGrid st.destPos = true) (hC : inGrid st.chargerPos = true)
    (hb0 : 0 ≤ st.battery) (hb1 : st.battery ≤ 1) :
    obsBounded (observation st) := by
  have hT : inGrid (obsTargetOf st) = true := by
    unfold obsTargetOf
    split_ifs <;> assumption
  obtain ⟨ha1, ha2, ha3, ha4⟩ := inGrid_bounds _ hA
  obtain ⟨ht1, ht2, ht3, ht4⟩ := inGrid_bounds _ hT
  obtain ⟨hc1, hc2, hc3, hc4⟩ := inGrid_bounds _ hC
  refine ⟨by simp [observation], ?_, ?_⟩
  · intro q hq
    simp only [observation, List.mem_cons, List.not_mem_nil, or_false] at hq
    rcases hq with rfl | rfl | rfl | rfl | rfl | rfl | rfl | rfl | rfl |
      rfl | rfl | rfl | rfl | rfl | rfl | rfl
    · exact relBound _ _ ha1 ha2 ht1 ht2
    · exact relBound _ _ ha3 ha4 ht3 ht4
    · exact unit_mem _ (flagQ_nonneg _) (flagQ_le_one _)
    · exact unit_mem _ (flagQ_nonneg _) (flagQ_le_one _)
    · exact unit_mem _ (flagQ_nonneg _) (flagQ_le_one _)
    · exact unit_mem _ (flagQ_nonneg _) (flagQ_le_one _)
    · exact unit_mem _ (flagQ_nonneg _) (flagQ_le_one _)
    · split_ifs <;> norm_num
    · exact unit_mem _ hb0 hb1
    · exact relBound _ _ ha1 ha2 hc1 hc2
    · exact relBound _ _ ha3 ha4 hc3 hc4
    · exact unit_mem _ (wallCount_bounds _ _ _ _).1 (wallCount_bounds _ _ _ _).2
    · exact unit_mem _ (flagQ_nonneg _) (flagQ_le_one _)
    · exact unit_mem _ (flagQ_nonneg _) (flagQ_le_one _)
    · exact unit_mem _ (flagQ_nonneg _) (flagQ_le_one _)
    · exact unit_mem _ (flagQ_nonneg _) (flagQ_le_one _)
  · intro i hi
    simp only [List.mem_cons, List.not_mem_nil, or_false] at hi
    rcases hi with rfl | rfl | rfl | rfl | rfl | rfl | rfl | rfl | rfl |
      rfl | rfl | rfl
    · simp only [observation, List.getD_eq_getElem?_getD]
      norm_num
      exact flagQ_nonneg _
    · simp only [observation, List.getD_eq_getElem?_getD]
      norm_num
      exact flagQ_nonneg _
    · simp only [observation, List.getD_eq_getElem?_getD]
      norm_num
      exact flagQ_nonneg _
    · simp only [observation, List.getD_eq_getElem?_getD]
      norm_num
      exact flagQ_nonneg _
    · simp only [observation, List.getD_eq_getElem?_getD]
      norm_num
      exact flagQ_nonneg _
    · simp only [observation, List.getD_eq_getElem?_getD]
      norm_num
      split_ifs <;> norm_num
    · simp only [observation, List.getD_eq_getElem?_getD]
      norm_num
      exact hb0
    · simp only [observation, List.getD_eq_getElem?_getD]
      norm_num
      exact (wallCount_bounds _ _ _ _).1
    · simp only [observation, List.getD_eq_getElem?_getD]
      norm_num
      exact flagQ_nonneg _
    · simp only [observation, List.getD_eq_getElem?_getD]
      norm_num
      exact flagQ_nonneg _
    · simp only [observation, List.getD_eq_getElem?_getD]
      norm_num
      exact flagQ_nonneg _
    · simp only [observation, List.getD_eq_getElem?_getD]
      norm_num
      exact flagQ_nonneg _

theorem freeCell_inGrid (p : ℤ × ℤ) (h : freeCell p = true) :
    inGrid p = true := by
  simp only [freeCell, Bool.and_eq_true] at h
  exact h.1

/-- Lower bound on the battery of any reachable state: the 1/50 grid
together with positivity puts it at or above 1/50. -/
theorem battery_ge_gran (b : ℚ) (k : ℤ) (hk : b = (k : ℚ) / 50)
    (hb : 0 < b) : 1/50 ≤ b := by
  have hkpos : 0 < (k : ℚ) := by
    by_contra hle
    push_neg at hle
    rw [hk] at hb
    nlinarith
  have hk1 : (1 : ℤ) ≤ k := by exact_mod_cast hkpos
  have : (1 : ℚ) ≤ (k : ℚ) := by exact_mod_cast hk1
  rw [hk]
  linarith

/-- Whatever the step outcome (terminal included), the positions of the
output state are in-grid and its battery lies in [0, 1]. -/
theorem step_state_bounds (st : WState) (a : ℤ) (hI : Inv st) :
    inGrid (step st a).state.agentPos = true ∧
    inGrid (step st a).state.pickupPos = true ∧
    inGrid (step st a).state.destPos = true ∧
    inGrid (step st a).state.chargerPos = true ∧
    0 ≤ (step st a).state.battery ∧ (step st a).state.battery ≤ 1 := by
  obtain ⟨hA, hP, hD, hC, hb0, hb1, ⟨k, hk⟩, hH⟩ := hI
  by_cases hb : drained st ≤ 0
  · rw [step_of_depleted st a hb]
    refine ⟨freeCell_inGrid _ hA, freeCell_inGrid _ hP, freeCell_inGrid _ hD,
      freeCell_inGrid _ hC, ?_, ?_⟩
    · have := battery_ge_gran st.battery k hk hb0
      unfold drained
      linarith
    · unfold drained
      linarith
  · have hbp : 0 < drained st := not_le.mp hb
    rw [step_state_of_pos st a hbp]
    refine ⟨freeCell_inGrid _ (execAction_pos_free _ _ _ _ _ _ _ _ _ hA),
      freeCell_inGrid _ hP, freeCell_inGrid _ hD, freeCell_inGrid _ hC,
      le_of_lt (applyAuto_battery_pos _ _ _ _ _ hbp),
      applyAuto_battery_le_one _ _ _ _ _ ?_⟩
    unfold drained
    linarith

/-! ## Concrete fixtures -/

/-- A concrete global numpy stream: cells (0,0), (1,0), (2,0), ... along
the wall-free bottom row. -/
def gA : ℕ → Fin 7 × Fin 7 :=
  fun i => (⟨i % 7, Nat.mod_lt i (by norm_num)⟩, ⟨0, by norm_num⟩)

/-- A second global stream, shifted: cells (4,0), (5,0), (6,0), ... -/
def gB : ℕ → Fin 7 × Fin 7 :=
  fun i => (⟨(i + 4) % 7, Nat.mod_lt (i + 4) (by norm_num)⟩, ⟨0, by norm_num⟩)

/-- The initial state reset produces when the global stream is gA. -/
def stA : WState :=
  { agentPos := (0, 0), pickupPos := (2, 0), destPos := (3, 0),
    chargerPos := (1, 0), holding := false, battery := 1,
    needsCharging := false, stepCount := 0, posHistory := [(0, 0)],
    lastTargetType := none, targetType := none }

/-- A state one call before the step horizon, far from termination. -/
def stHorizon : WState :=
  { agentPos := (0, 0), pickupPos := (6, 0), destPos := (0, 6),
    chargerPos := (6, 6), holding := false, battery := 1,
    needsCharging := false, stepCount := 199, posHistory := [],
    lastTargetType := none, targetType := none }

/-- An unremarkable mid-episode state. -/
def stMid : WState :=
  { agentPos := (0, 0), pickupPos := (6, 0), destPos := (0, 6),
    chargerPos := (6, 6), holding := false, battery := 1,
    needsCharging := false, stepCount := 5, posHistory := [],
    lastTargetType := none, targetType := none }

/-- A latched state (needs_charging set, battery recovered to 0.52)
whose agent stands on the pickup cell while the active objective is the
charger. -/
def stOnPickupLatched : WState :=
  { agentPos := (0, 0), pickupPos := (0, 0), destPos := (6, 0),
    chargerPos := (6, 6), holding := false, battery := 26/50,
    needsCharging := true, stepCount := 30, posHistory := [],
    lastTargetType := none, targetType := none }

/-! ## Claims -/

/-- Claim C1, counterexample: in a state that is not already terminated
(full battery, nothing dropped), the call on which step_count reaches
the horizon 200 reports terminated = true and truncated = false — not
truncated = true as the claim says.  The step method sets its single
done flag at the horizon and returns it in the terminated slot of the
5-tuple, while the truncated slot is the literal False. -/
theorem horizon_reports_terminated_counterexample :
    (step stHorizon 6).terminated = true ∧
    (step stHorizon 6).truncated = false := by
  constructor
  · norm_num [step, stHorizon, drained, ttOf, needs1Of, activeOf, hist1Of,
      postExec, execAction, applyAuto, distSq, moveDelta, freeCell, inGrid,
      isWall, gridSize]
  · exact step_truncated_false _ _

/-- Claim C1, amended: the step call on which step_count reaches the
horizon 200 returns terminated = true (the done flag of the source) and
truncated = false; the source never reports truncation, so a timeout is
indistinguishable from a natural terminal outcome in the returned
flags. -/
theorem horizon_sets_terminated_not_truncated (st : WState) (a : ℤ)
    (h : 199 ≤ st.stepCount) :
    (step st a).terminated = true ∧ (step st a).truncated = false := by
  refine ⟨?_, step_truncated_false st a⟩
  by_cases hb : drained st ≤ 0
  · rw [step_of_depleted st a hb]
  · rw [step_terminated_of_pos st a (not_le.mp hb)]
    have h200 : 200 ≤ st.stepCount + 1 := by omega
    simp [h200]

/-- Witness for the amended C1 at a concrete input. -/
theorem horizon_sets_terminated_not_truncated_witness :
    199 ≤ stHorizon.stepCount ∧
    ((step stHorizon 3).terminated = true ∧
      (step stHorizon 3).truncated = false) :=
  ⟨by norm_num [stHorizon],
    horizon_sets_terminated_not_truncated stHorizon 3
      (by norm_num [stHorizon])⟩

/-- Claim C2, counterexample: the action index 7 lies outside the
declared range 0..6, yet step raises nothing (the source has no raise
statement and no validation; the index falls through every branch of
the if/elif chain): the call completes with terminated = false, the
agent position and holding flag unchanged, and the reward equal to the
plain per-step penalty -1 — precisely the silent no-op the claim
denies. -/
theorem invalid_action_noop_counterexample :
    (step stMid 7).terminated = false ∧
    (step stMid 7).state.agentPos = stMid.agentPos ∧
    (step stMid 7).state.holding = stMid.holding ∧
    (step stMid 7).reward = -1 := by
  refine ⟨?_, ?_, ?_, ?_⟩ <;>
    norm_num [step, stMid, drained, ttOf, needs1Of, activeOf, hist1Of,
      postExec, execAction, applyAuto, distSq, moveDelta, freeCell, inGrid,
      isWall, gridSize]

/-- Claim C2, amended: step performs no validation of the action index.
An index of 7 or more falls through every branch of the if/elif chain:
the action section returns the state untouched with no reward delta, so
the call behaves as a no-op apart from the step penalty, the battery
drain and the automatic proximity logic.  (A negative index instead
enters the movement branch with zero displacement.)  No error of any
kind is raised. -/
theorem invalid_action_fallthrough (st : WState) (a : ℤ) (ha : 7 ≤ a)
    (hb : 0 < drained st) :
    postExec st a = ⟨st.agentPos, st.holding, hist1Of st, 0, false⟩ ∧
    (step st a).state.agentPos = st.agentPos ∧
    (step st a).state.posHistory = hist1Of st ∧
    (step st a).reward = -1 +
      ((applyAuto (ttOf st) (decide (4 * distSq st.agentPos (activeOf st) < 1))
        st.holding (drained st) (needs1Of st)).rew : ℝ) := by
  have h4 : ¬(a < 4) := by omega
  have h6 : ¬(a = 6) := by omega
  have h4e : ¬(a = 4) := by omega
  have h5 : ¬(a = 5) := by omega
  have he : postExec st a = ⟨st.agentPos, st.holding, hist1Of st, 0, false⟩ := by
    simp [postExec, execAction, h4, h6, h4e, h5]
  refine ⟨he, ?_, ?_, ?_⟩
  · rw [step_state_of_pos st a hb, he]
  · rw [step_state_of_pos st a hb, he]
  · rw [step_reward_of_pos st a hb, he]
    ring

/-- Witness for the amended C2 at a concrete input. -/
theorem invalid_action_fallthrough_witness :
    (7 ≤ (9 : ℤ) ∧ 0 < drained stMid) ∧
    (postExec stMid 9 = ⟨stMid.agentPos, stMid.holding, hist1Of stMid, 0, false⟩ ∧
     (step stMid 9).state.agentPos = stMid.agentPos ∧
     (step stMid 9).state.posHistory = hist1Of stMid ∧
     (step stMid 9).reward = -1 +
       ((applyAuto (ttOf stMid)
         (decide (4 * distSq stMid.agentPos (activeOf stMid) < 1))
         stMid.holding (drained stMid) (needs1Of stMid)).rew : ℝ)) :=
  ⟨⟨by norm_num, by norm_num [drained, stMid]⟩,
    invalid_action_fallthrough stMid 9 (by norm_num)
      (by norm_num [drained, stMid])⟩

/-- Claim C3 (code bug): reset is not reproducible from its seed.  The
reset method forwards the seed to the gymnasium base class, which seeds
self.np_random, but every position draw goes through _get_free_pos,
which reads the process-global generator np.random (the stream g here);
so the seed influences nothing, and two independently constructed
environments whose global streams differ (gA versus gB) produce
different worlds under the very same seed, while different seeds over
one stream produce identical worlds. -/
theorem reset_seed_has_no_effect :
    resetW (some 0) gA 20 = resetW (some 1) gA 20 ∧
    resetW none gA 20 = resetW (some 0) gA 20 ∧
    resetW (some 0) gA 20 = some stA ∧
    resetW (some 0) gA 20 ≠ resetW (some 0) gB 20 :=
  ⟨rfl, rfl, by decide, by decide⟩

/-- Claim C7: on every reachable state the battery is nonnegative, it
stays nonnegative after any step, and a step whose drain takes it to 0
or below returns immediately: terminated = true, truncated = false, the
fixed -100 reward, position and holding untouched — independent of the
agent position in the state and of the action taken. -/
theorem battery_nonneg_depletion_terminal (st : WState) (a : ℤ)
    (h : Reachable st) :
    0 ≤ st.battery ∧ 0 ≤ (step st a).state.battery ∧
    (drained st ≤ 0 →
      (step st a).terminated = true ∧ (step st a).truncated = false ∧
      (step st a).reward = -100 ∧
      (step st a).state.agentPos = st.agentPos ∧
      (step st a).state.holding = st.holding) := by
  have hI := reachable_Inv st h
  have hB := step_state_bounds st a hI
  obtain ⟨hA, hP, hD, hC, hb0, hb1, hkk, hH⟩ := hI
  refine ⟨le_of_lt hb0, hB.2.2.2.2.1, ?_⟩
  intro hdep
  rw [step_of_depleted st a hdep]
  exact ⟨rfl, rfl, rfl, rfl, rfl⟩

/-- Witness for C7 at a concrete reachable state. -/
theorem battery_nonneg_depletion_terminal_witness :
    0 ≤ stA.battery ∧ 0 ≤ (step stA 2).state.battery ∧
    (drained stA ≤ 0 →
      (step stA 2).terminated = true ∧ (step stA 2).truncated = false ∧
      (step stA 2).reward = -100 ∧
      (step stA 2).state.agentPos = stA.agentPos ∧
      (step stA 2).state.holding = stA.holding) :=
  battery_nonneg_depletion_terminal stA 2
    (Reachable.init (some 0) gA 20 stA (by decide))

/-- Claim C8: every observation returned by reset or by step on a
reachable state is a vector of exactly 16 components, all within
[-1, 1], and the flag-like components (everything except the two
relative-displacement pairs) within [0, 1]. -/
theorem observation_sixteen_bounded (st : WState) (a : ℤ)
    (h : Reachable st) :
    obsBounded (observation st) ∧
    obsBounded (observation (step st a).state) := by
  have hI := reachable_Inv st h
  have hB := step_state_bounds st a hI
  obtain ⟨hA, hP, hD, hC, hb0, hb1, hkk, hH⟩ := hI
  exact ⟨observation_bounded st (freeCell_inGrid _ hA) (freeCell_inGrid _ hP)
      (freeCell_inGrid _ hD) (freeCell_inGrid _ hC) (le_of_lt hb0) hb1,
    observation_bounded _ hB.1 hB.2.1 hB.2.2.1 hB.2.2.2.1 hB.2.2.2.2.1
      hB.2.2.2.2.2⟩

/-- Witness for C8 at a concrete reachable state. -/
theorem observation_sixteen_bounded_witness :
    obsBounded (observation stA) ∧
    obsBounded (observation (step stA 0).state) :=
  observation_sixteen_bounded stA 0
    (Reachable.init (some 0) gA 20 stA (by decide))

/-- Claim C4, counterexample: a latched state (active objective is the
CHARGER, stored in target_type) whose agent stands on the pickup cell
and is not holding: the PICKUP action nevertheless succeeds — holding
becomes true and the +50 bonus is paid (reward -1 + 50 = 49) — because
the source checks the distance to pickup_pos, not to the active
objective.  The claim says this case must be a failed interaction with
the -5 penalty and no state change. -/
theorem pickup_ignores_objective_counterexample :
    (step stOnPickupLatched 4).state.targetType = some TargetType.CHARGER ∧
    (step stOnPickupLatched 4).state.holding = true ∧
    (step stOnPickupLatched 4).reward = 49 := by
  refine ⟨?_, ?_, ?_⟩ <;>
    norm_num [step, stOnPickupLatched, drained, ttOf, needs1Of, activeOf,
      hist1Of, postExec, execAction, applyAuto, distSq, moveDelta, freeCell,
      inGrid, isWall, gridSize]

/-- Claim C4, amended: the PICKUP action succeeds — holding becomes true
and the +50 bonus is added — iff the agent is not holding and the
Euclidean distance to the pickup point is below 1.0, regardless of the
active objective; in every other case the branch adds the fixed -5
failure penalty and changes nothing itself (the automatic proximity
logic may still act afterwards). -/
theorem pickup_succeeds_iff_at_pickup_point (st : WState)
    (hb : 0 < drained st) :
    ((st.holding = false ∧ distSq st.agentPos st.pickupPos < 1) →
      postExec st 4 = ⟨st.agentPos, true, hist1Of st, 50, false⟩ ∧
      (step st 4).state.holding = true ∧
      (step st 4).reward = -1 + 50 +
        ((applyAuto (ttOf st)
          (decide (4 * distSq st.agentPos (activeOf st) < 1))
          true (drained st) (needs1Of st)).rew : ℝ)) ∧
    (¬(st.holding = false ∧ distSq st.agentPos st.pickupPos < 1) →
      postExec st 4 = ⟨st.agentPos, st.holding, hist1Of st, -5, false⟩ ∧
      (step st 4).reward = -1 + -5 +
        ((applyAuto (ttOf st)
          (decide (4 * distSq st.agentPos (activeOf st) < 1))
          st.holding (drained st) (needs1Of st)).rew : ℝ)) := by
  constructor
  · rintro ⟨hh, hd⟩
    have he : postExec st 4 = ⟨st.agentPos, true, hist1Of st, 50, false⟩ := by
      norm_num [postExec, execAction, hh, hd]
    have hho : ∀ nr : Bool,
        (applyAuto (ttOf st) nr true (drained st) (needs1Of st)).holding =
          true := by
      intro nr
      unfold ttOf applyAuto
      simp only [hh, Bool.not_false, if_true]
      split_ifs <;> rfl
    refine ⟨he, ?_, ?_⟩
    · rw [step_state_of_pos st 4 hb, he]
      exact hho _
    · rw [step_reward_of_pos st 4 hb, he]
  · intro hn
    have hcond : (!st.holding &&
        decide (distSq st.agentPos st.pickupPos < 1)) = false := by
      cases hht : st.holding with
      | true => simp
      | false =>
        simp only [Bool.not_false, Bool.true_and, decide_eq_false_iff_not]
        intro hd
        exact hn ⟨hht, hd⟩
    have he : postExec st 4 =
        ⟨st.agentPos, st.holding, hist1Of st, -5, false⟩ := by
      norm_num [postExec, execAction, hcond]
    refine ⟨he, ?_⟩
    rw [step_reward_of_pos st 4 hb, he]

/-- Witness for the amended C4: a full-battery state with the agent on
its pickup cell, exercising the success branch. -/
theorem pickup_succeeds_iff_witness :
    (0 : ℚ) < drained stMid ∧
    (¬(stMid.holding = false ∧ distSq stMid.agentPos stMid.pickupPos < 1) →
      postExec stMid 4 =
        ⟨stMid.agentPos, stMid.holding, hist1Of stMid, -5, false⟩ ∧
      (step stMid 4).reward = -1 + -5 +
        ((applyAuto (ttOf stMid)
          (decide (4 * distSq stMid.agentPos (activeOf stMid) < 1))
          stMid.holding (drained stMid) (needs1Of stMid)).rew : ℝ)) :=
  ⟨by norm_num [drained, stMid],
    (pickup_succeeds_iff_at_pickup_point stMid
      (by norm_num [drained, stMid])).2⟩

/-- Claim C5: a movement action whose destination cell is off-grid or a
wall leaves agent_pos unchanged, leaves the history untouched, and the
reward is the step penalty plus the fixed -10 wall-collision penalty
plus at most the automatic proximity terms: no progress term appears
(the reward expression contains no distance difference). -/
theorem wall_collision_blocked (st : WState) (a : ℤ)
    (ha : a = 0 ∨ a = 1 ∨ a = 2 ∨ a = 3)
    (hw : freeCell (st.agentPos.1 + (moveDelta a).1,
      st.agentPos.2 + (moveDelta a).2) = false)
    (hb : 0 < drained st) :
    (step st a).state.agentPos = st.agentPos ∧
    (step st a).state.posHistory = hist1Of st ∧
    (step st a).reward = -1 + -10 +
      ((applyAuto (ttOf st)
        (decide (4 * distSq st.agentPos (activeOf st) < 1))
        st.holding (drained st) (needs1Of st)).rew : ℝ) := by
  have h4 : a < 4 := by rcases ha with rfl | rfl | rfl | rfl <;> norm_num
  have he : postExec st a =
      ⟨st.agentPos, st.holding, hist1Of st, -10, false⟩ := by
    simp [postExec, execAction, h4, hw]
  refine ⟨?_, ?_, ?_⟩
  · rw [step_state_of_pos st a hb, he]
  · rw [step_state_of_pos st a hb, he]
  · rw [step_reward_of_pos st a hb, he]

/-- Witness for C5: moving LEFT from the west edge (destination cell
off-grid). -/
theorem wall_collision_blocked_witness :
    freeCell (stMid.agentPos.1 + (moveDelta 2).1,
      stMid.agentPos.2 + (moveDelta 2).2) = false ∧
    ((step stMid 2).state.agentPos = stMid.agentPos ∧
     (step stMid 2).state.posHistory = hist1Of stMid ∧
     (step stMid 2).reward = -1 + -10 +
       ((applyAuto (ttOf stMid)
         (decide (4 * distSq stMid.agentPos (activeOf stMid) < 1))
         stMid.holding (drained stMid) (needs1Of stMid)).rew : ℝ)) :=
  ⟨by decide,
    wall_collision_blocked stMid 2 (Or.inr (Or.inr (Or.inl rfl)))
      (by decide) (by norm_num [drained, stMid])⟩

/-- The auto-trigger when the agent is not within 0.5 of the target:
everything passes through unchanged. -/
theorem applyAuto_near_false (tt : TargetType) (holding : Bool)
    (battery : ℚ) (needs : Bool) :
    applyAuto tt false holding battery needs =
      ⟨holding, battery, needs, 0, false⟩ := rfl

/-- The auto-trigger on the charger: +10, boost capped at 1, and the
latch cleared exactly when the boosted battery reaches 0.95. -/
theorem applyAuto_charger_true (holding : Bool) (battery : ℚ)
    (needs : Bool) :
    applyAuto TargetType.CHARGER true holding battery needs =
      ⟨holding, min 1 (battery + 3/10),
        if (19 : ℚ)/20 ≤ min 1 (battery + 3/10) ∧ needs = true then false
        else needs, 10, false⟩ := by
  cases needs <;>
    by_cases h1 : (19 : ℚ)/20 ≤ min 1 (battery + 3/10) <;>
    simp [applyAuto, h1]

/-- On the 1/50 battery grid, reaching the 0.95 threshold in the wide
sense is the same as exceeding it strictly: 0.95 itself is not on the
grid. -/
theorem gran_le_iff_lt (j : ℤ) :
    ((19 : ℚ)/20 ≤ (j : ℚ)/50) ↔ ((19 : ℚ)/20 < (j : ℚ)/50) := by
  have h1 : ((19 : ℚ)/20 ≤ (j : ℚ)/50) ↔ 48 ≤ j := by
    rw [div_le_div_iff₀ (by norm_num) (by norm_num)]
    constructor
    · intro h
      have h2 : (950 : ℤ) ≤ j * 20 := by exact_mod_cast h
      omega
    · intro h
      have h2 : (48 : ℚ) ≤ (j : ℚ) := by exact_mod_cast h
      nlinarith
  have h2 : ((19 : ℚ)/20 < (j : ℚ)/50) ↔ 48 ≤ j := by
    rw [div_lt_div_iff₀ (by norm_num) (by norm_num)]
    constructor
    · intro h
      have h3 : (950 : ℤ) < j * 20 := by exact_mod_cast h
      omega
    · intro h
      have h3 : (48 : ℚ) ≤ (j : ℚ) := by exact_mod_cast h
      nlinarith
  rw [h1, h2]

/-- The charger boost of a battery on the 1/50 grid, explicitly. -/
theorem boost_gran (k : ℤ) :
    min 1 (((k : ℚ)) / 50 + 3/10) = ((min 50 (k + 15) : ℤ) : ℚ) / 50 := by
  have h : ((k : ℚ)) / 50 + 3 / 10 = ((k : ℚ) + 15) / 50 := by ring
  rw [h]
  have h1 : (1 : ℚ) = (50 : ℚ) / 50 := by norm_num
  rw [h1, min_div_div_right (by norm_num : (0 : ℚ) ≤ 50)]
  push_cast
  ring_nf

/-- Claim C6: the active objective is selected under strict priority —
CHARGER when the drained battery is below 0.25 or the latch is already
set, else PICKUP when not holding, else DESTINATION — and, on battery
values of the reachable 1/50 grid, a set latch is cleared by the step
exactly when the agent ends the step on the resupply point with the
battery strictly above 0.95. -/
theorem objective_priority_and_latch (st : WState) (a : ℤ)
    (hb : 0 < drained st) (hk : ∃ k : ℤ, st.battery = (k : ℚ) / 50) :
    (step st a).state.targetType =
      some (if drained st < 1/4 ∨ st.needsCharging = true then
          TargetType.CHARGER
        else if st.holding = false then TargetType.PICKUP
        else TargetType.DESTINATION) ∧
    (st.needsCharging = true →
      ((step st a).state.needsCharging = false ↔
        ((step st a).state.agentPos = st.chargerPos ∧
          (19 : ℚ)/20 < (step st a).state.battery))) := by
  obtain ⟨k, hkq⟩ := hk
  have hdr : drained st = ((k - 1 : ℤ) : ℚ) / 50 := by
    unfold drained
    rw [hkq]
    push_cast
    ring
  constructor
  · rw [step_state_of_pos st a hb]
    have htt : ttOf st =
        (if drained st < 1/4 ∨ st.needsCharging = true then TargetType.CHARGER
         else if st.holding = false then TargetType.PICKUP
         else TargetType.DESTINATION) := by
      by_cases h1 : drained st < 1/4 <;>
        cases h2 : st.needsCharging <;>
        cases h3 : st.holding <;>
        simp [ttOf, needs1Of, h1, h2, h3]
    simp only [htt]
  · intro hset
    have hn1 : needs1Of st = true := by
      unfold needs1Of
      split_ifs <;> simp [hset]
    have htc : ttOf st = TargetType.CHARGER := by
      unfold ttOf
      rw [hn1]
      rfl
    have hac : activeOf st = st.chargerPos := by
      unfold activeOf
      rw [htc]
    have hj : min 1 (drained st + 3/10) =
        ((min 50 (k - 1 + 15) : ℤ) : ℚ) / 50 := by
      rw [hdr]
      exact boost_gran (k - 1)
    rw [step_state_of_pos st a hb]
    dsimp only
    rw [htc, hac, hn1]
    by_cases hpos : (postExec st a).pos = st.chargerPos
    · have hd4 : 4 * distSq (postExec st a).pos st.chargerPos < 1 :=
        (distSq_four_lt_one_iff _ _).mpr hpos
      rw [decide_eq_true hd4, applyAuto_charger_true]
      dsimp only
      by_cases hle : (19 : ℚ)/20 ≤ min 1 (drained st + 3/10)
      · have hlt : (19 : ℚ)/20 < min 1 (drained st + 3/10) := by
          rw [hj] at hle ⊢
          exact (gran_le_iff_lt _).mp hle
        simp [hle, hpos, hlt]
      · have hnlt : ¬((19 : ℚ)/20 < min 1 (drained st + 3/10)) := fun hlt =>
          hle (le_of_lt hlt)
        simp [hle, hnlt]
    · have hd4 : ¬(4 * distSq (postExec st a).pos st.chargerPos < 1) := by
        rw [distSq_four_lt_one_iff]
        exact hpos
      rw [decide_eq_false hd4, applyAuto_near_false]
      simp [hpos]

/-- Witness for C6 at a concrete input. -/
theorem objective_priority_and_latch_witness :
    ((0 : ℚ) < drained stMid ∧ ∃ k : ℤ, stMid.battery = (k : ℚ) / 50) ∧
    ((step stMid 1).state.targetType =
      some (if drained stMid < 1/4 ∨ stMid.needsCharging = true then
          TargetType.CHARGER
        else if stMid.holding = false then TargetType.PICKUP
        else TargetType.DESTINATION) ∧
     (stMid.needsCharging = true →
      ((step stMid 1).state.needsCharging = false ↔
        ((step stMid 1).state.agentPos = stMid.chargerPos ∧
          (19 : ℚ)/20 < (step stMid 1).state.battery)))) :=
  ⟨⟨by norm_num [drained, stMid], ⟨50, by norm_num [stMid]⟩⟩,
    objective_priority_and_latch stMid 1 (by norm_num [drained, stMid])
      ⟨50, by norm_num [stMid]⟩⟩

/-- Claim C9: on a successful move the reward contains the fixed -5
loop penalty exactly when the post-move cell is already present in the
recent-cell history at the moment of the check (the history as it
stands after the target-switch clearing, before any append); the cell
is appended only after that check, and the history is kept at no more
than 8 cells by first-in-first-out eviction of its oldest entry. -/
theorem loop_penalty_check_then_append_fifo (st : WState) (a : ℤ)
    (np : ℤ × ℤ) (ha : a = 0 ∨ a = 1 ∨ a = 2 ∨ a = 3)
    (hnp : np = (st.agentPos.1 + (moveDelta a).1,
      st.agentPos.2 + (moveDelta a).2))
    (hfree : freeCell np = true) (hb : 0 < drained st) :
    (step st a).reward =
      -1 + (10 * (distR st.agentPos (activeOf st) - distR np (activeOf st)) +
        (if np ∈ hist1Of st then (-5 : ℝ) else 0)) +
      ((applyAuto (ttOf st) (decide (4 * distSq np (activeOf st) < 1))
        st.holding (drained st) (needs1Of st)).rew : ℝ) ∧
    (step st a).state.posHistory =
      (if 8 < (hist1Of st ++ [np]).length then (hist1Of st ++ [np]).tail
       else hist1Of st ++ [np]) ∧
    (st.posHistory.length ≤ 8 → (step st a).state.posHistory.length ≤ 8) := by
  have h4 : a < 4 := by rcases ha with rfl | rfl | rfl | rfl <;> norm_num
  have he : postExec st a =
      ⟨np, st.holding,
        (if 8 < (hist1Of st ++ [np]).length then (hist1Of st ++ [np]).tail
         else hist1Of st ++ [np]),
        10 * (distR st.agentPos (activeOf st) - distR np (activeOf st)) +
          (if np ∈ hist1Of st then (-5 : ℝ) else 0), false⟩ := by
    subst hnp
    simp [postExec, execAction, h4, hfree]
  refine ⟨?_, ?_, ?_⟩
  · rw [step_reward_of_pos st a hb, he]
  · rw [step_state_of_pos st a hb, he]
  · intro hlen
    have h1 : (hist1Of st).length ≤ 8 := hist1Of_len st hlen
    rw [step_state_of_pos st a hb, he]
    dsimp only
    split_ifs with h2
    · simp only [List.length_tail, List.length_append, List.length_cons,
        List.length_nil]
      omega
    · simp only [List.length_append, List.length_cons, List.length_nil] at h2 ⊢
      omega

/-- A full-battery state one cell west of its pickup point. -/
def stNearPickup : WState :=
  { agentPos := (5, 0), pickupPos := (6, 0), destPos := (0, 6),
    chargerPos := (6, 6), holding := false, battery := 1,
    needsCharging := false, stepCount := 5, posHistory := [],
    lastTargetType := none, targetType := none }

/-- Witness for C9: moving DOWN from (0,0) onto the free cell (0,1). -/
theorem loop_penalty_check_then_append_fifo_witness :
    (freeCell (0, 1) = true ∧ 0 < drained stMid ∧
      ((0 : ℤ), (1 : ℤ)) = (stMid.agentPos.1 + (moveDelta 1).1,
        stMid.agentPos.2 + (moveDelta 1).2)) ∧
    ((step stMid 1).state.posHistory =
      (if 8 < (hist1Of stMid ++ [((0 : ℤ), (1 : ℤ))]).length then
        (hist1Of stMid ++ [((0 : ℤ), (1 : ℤ))]).tail
       else hist1Of stMid ++ [((0 : ℤ), (1 : ℤ))]) ∧
     (stMid.posHistory.length ≤ 8 →
       (step stMid 1).state.posHistory.length ≤ 8)) :=
  ⟨⟨by decide, by norm_num [drained, stMid], by decide⟩,
    ⟨(loop_penalty_check_then_append_fifo stMid 1 ((0 : ℤ), (1 : ℤ))
        (Or.inr (Or.inl rfl)) (by decide) (by decide)
        (by norm_num [drained, stMid])).2.1,
      (loop_penalty_check_then_append_fifo stMid 1 ((0 : ℤ), (1 : ℤ))
        (Or.inr (Or.inl rfl)) (by decide) (by decide)
        (by norm_num [drained, stMid])).2.2⟩⟩

/-- Claim C10: whenever the executed action leaves the agent within 0.5
of the active objective (with integer cells: exactly on it), the
proximity logic fires regardless of which action was chosen: +10 is
always added, and the type-specific interaction applies — auto-pickup
(+50, holding set) when the objective is PICKUP and the agent is
empty-handed after the action, auto-drop (+100, holding cleared,
episode terminated) when the objective is DESTINATION and the agent
holds, and a battery boost of +0.3 capped at 1.0 with the latch cleared
once the boosted battery reaches 0.95 when the objective is the
CHARGER. -/
theorem auto_trigger_proximity (st : WState) (a : ℤ) (au : AutoOut)
    (hb : 0 < drained st)
    (hnear : 4 * distSq (postExec st a).pos (activeOf st) < 1)
    (hau : au = applyAuto (ttOf st) true (postExec st a).holding
      (drained st) (needs1Of st)) :
    (step st a).reward = -1 + (postExec st a).rew + (au.rew : ℝ) ∧
    (10 : ℚ) ≤ au.rew ∧
    (ttOf st = TargetType.PICKUP → (postExec st a).holding = false →
      (step st a).state.holding = true ∧ au.rew = 10 + 50) ∧
    (ttOf st = TargetType.DESTINATION → (postExec st a).holding = true →
      (step st a).state.holding = false ∧ (step st a).terminated = true ∧
      au.rew = 10 + 100) ∧
    (ttOf st = TargetType.CHARGER →
      (step st a).state.battery = min 1 (drained st + 3/10) ∧
      (step st a).state.needsCharging =
        (if (19 : ℚ)/20 ≤ min 1 (drained st + 3/10) ∧ needs1Of st = true
         then false else needs1Of st) ∧
      au.rew = 10) := by
  have hd : decide (4 * distSq (postExec st a).pos (activeOf st) < 1) =
      true := decide_eq_true hnear
  refine ⟨?_, ?_, ?_, ?_, ?_⟩
  · rw [step_reward_of_pos st a hb, hd, ← hau]
  · rw [hau]
    cases ttOf st <;> cases hh : (postExec st a).holding <;>
      simp [applyAuto, hh]
  · intro htt hhf
    constructor
    · rw [step_state_of_pos st a hb]
      dsimp only
      rw [hd, htt, hhf]
      simp [applyAuto]
    · rw [hau, htt, hhf]
      simp [applyAuto]
  · intro htt hht
    refine ⟨?_, ?_, ?_⟩
    · rw [step_state_of_pos st a hb]
      dsimp only
      rw [hd, htt, hht]
      simp [applyAuto]
    · rw [step_terminated_of_pos st a hb]
      rw [hd, htt, hht]
      simp [applyAuto]
    · rw [hau, htt, hht]
      simp [applyAuto]
  · intro htt
    refine ⟨?_, ?_, ?_⟩
    · rw [step_state_of_pos st a hb]
      dsimp only
      rw [hd, htt, applyAuto_charger_true]
    · rw [step_state_of_pos st a hb]
      dsimp only
      rw [hd, htt, applyAuto_charger_true]
    · rw [hau, htt, applyAuto_charger_true]

/-- Witness for C10: moving RIGHT onto the pickup cell triggers the
auto-pickup path. -/
theorem auto_trigger_proximity_witness :
    (0 < drained stNearPickup ∧
      4 * distSq (postExec stNearPickup 3).pos (activeOf stNearPickup) < 1) ∧
    ((step stNearPickup 3).reward = -1 + (postExec stNearPickup 3).rew +
      (((applyAuto (ttOf stNearPickup) true
        (postExec stNearPickup 3).holding (drained stNearPickup)
        (needs1Of stNearPickup)).rew : ℚ) : ℝ)) :=
  ⟨⟨by norm_num [drained, stNearPickup],
    by norm_num [postExec, execAction, activeOf, ttOf, needs1Of, drained,
      stNearPickup, hist1Of, moveDelta, freeCell, inGrid, isWall, gridSize,
      distSq]⟩,
   (auto_trigger_proximity stNearPickup 3 _
      (by norm_num [drained, stNearPickup])
      (by norm_num [postExec, execAction, activeOf, ttOf, needs1Of, drained,
        stNearPickup, hist1Of, moveDelta, freeCell, inGrid, isWall, gridSize,
        distSq])
      rfl).1⟩

end Warehouse
